import Mathlib

/-!
Shallow embedding of `src/uptime-bot.py` (AltBot uptime monitor).

The script fetches the recent statuses of the `altbot` account, extracts the
localized "altTextError" phrases from `localizations.json`, counts phrase
occurrences in the fetched statuses with a double loop, compares the count to
a threshold, composes one of two messages and posts it (with a "testing"
spoiler when the `test` flag is set).

Python strings are modelled as Lean `String`, Python dicts as association
lists, JSON values as the inductive `JVal`, and a raised exception
(`IndexError`, `TypeError`, `KeyError`) as `none` in `Option`.
-/

namespace UptimeBot

/-- Python's `needle in haystack` prefix step: `startsList n h` is true iff
`h` starts with `n` (character-by-character comparison). -/
def startsList : List Char → List Char → Bool
  | [], _ => true
  | _ :: _, [] => false
  | a :: as, b :: bs => a == b && startsList as bs

/-- Python's substring operator `needle in haystack` on character lists:
true iff `n` occurs contiguously in `h`. -/
def containsSub : List Char → List Char → Bool
  | n, [] => n.isEmpty
  | n, c :: rest => startsList n (c :: rest) || containsSub n rest

/-- Python's `error in content` for strings (line 37 of the source):
literal, case-sensitive substring containment. -/
def pyInStr (needle haystack : String) : Bool :=
  containsSub needle.toList haystack.toList

/-- A fetched status; the source only reads its `content` field (line 35). -/
structure Status where
  content : String
deriving DecidableEq

/-- A parsed JSON value, as `json.load` produces it: a string, an array, or
an object (dict) given by its key/value items. -/
inductive JVal where
  | jstr : String → JVal
  | jlist : List JVal → JVal
  | jobj : List (String × JVal) → JVal

/-- Python dict lookup `d[k]` on an object's items (first matching key). -/
def lookupK (k : String) : List (String × JVal) → Option JVal
  | [] => none
  | p :: rest => if p.1 == k then some p.2 else lookupK k rest

/-- Python's `k in val` for the value shapes `json.load` can return: key
membership for a dict, substring for a string, element equality for a list. -/
def JVal.pyIn (k : String) : JVal → Bool
  | .jstr s => pyInStr k s
  | .jlist xs => xs.any (fun v => match v with | .jstr s => s == k | _ => false)
  | .jobj fs => fs.any (fun p => p.1 == k)

/-- Python's subscript `val[k]` with a string key: dict lookup on an object,
`TypeError`/`KeyError` (modelled `none`) on anything else or a missing key. -/
def JVal.getK (k : String) : JVal → Option JVal
  | .jobj fs => lookupK k fs
  | _ => none

/-- A guarded Python list comprehension `[f(x) for x in xs if g(x)]` where
evaluating `f` can raise (modelled `none`), which aborts the comprehension. -/
def pyListComp {α β : Type} (g : α → Bool) (f : α → Option β) :
    List α → Option (List β)
  | [] => some []
  | x :: xs =>
      if g x then
        match f x, pyListComp g f xs with
        | some y, some ys => some (y :: ys)
        | _, _ => none
      else pyListComp g f xs

/-- Line 28 of the source: `temp1 = 'responses'`. -/
def temp1 : String := "responses"

/-- Line 29 of the source: `temp2 = 'altTextError'`. -/
def temp2 : String := "altTextError"

/-- Line 30: `[val[temp1] for key, val in localizations.items() if temp1 in
val]`. -/
def responses (localizations : List (String × JVal)) : Option (List JVal) :=
  pyListComp (fun kv => JVal.pyIn temp1 kv.2) (fun kv => JVal.getK temp1 kv.2)
    localizations

/-- Line 31: `[val[temp2] for val in responses if temp2 in val]`. -/
def error_responses (localizations : List (String × JVal)) :
    Option (List JVal) :=
  (responses localizations).bind
    (pyListComp (fun v => JVal.pyIn temp2 v) (fun v => JVal.getK temp2 v))

/-- The inner loop of lines 36-39: for each phrase in `error_responses`, if it
occurs in `content`, the counter is incremented.  There is no `break` in the
source, so one status can increment the counter several times. -/
def innerLoop (content : String) : List String → Nat → Nat
  | [], error_count => error_count
  | error :: rest, error_count =>
      innerLoop content rest
        (if pyInStr error content then error_count + 1 else error_count)

/-- The outer loop of lines 34-39, recursing over the list of indices that
`range(number_of_statuses)` yields.  `altbot_statuses[i]` with `i` out of
range raises `IndexError`, modelled by `none`. -/
def errorCountLoop (altbot_statuses : List Status)
    (error_responses : List String) : List Nat → Nat → Option Nat
  | [], error_count => some error_count
  | i :: rest, error_count =>
      match altbot_statuses[i]? with
      | none => none
      | some st =>
          errorCountLoop altbot_statuses error_responses rest
            (innerLoop st.content error_responses error_count)

/-- Lines 33-39: `error_count = 0; for i in range(number_of_statuses): ...`.
The iteration range is the configured `number_of_statuses`, not the length of
the fetched list. -/
def error_count (altbot_statuses : List Status) (error_responses : List String)
    (number_of_statuses : Nat) : Option Nat :=
  errorCountLoop altbot_statuses error_responses
    (List.range number_of_statuses) 0

/-- Lines 41-44: the composed message.  `status` keeps the source's variable
name. -/
def status (error_count threshold_of_errors : Nat) (mods : String) : String :=
  if error_count ≥ threshold_of_errors then
    "@altbot is throwing errors.\n Pinging " ++ mods
  else
    "All is fine"

/-- The record submitted by `mastodon.status_post`: the posted text and the
optional spoiler text. -/
structure Post where
  text : String
  spoiler_text : Option String
deriving DecidableEq

/-- Lines 47-50: in test mode the post carries `spoiler_text="testing"`,
otherwise no spoiler is passed. -/
def status_post (test : Bool) (status : String) : Post :=
  if test then ⟨status, some "testing"⟩ else ⟨status, none⟩

/-- Lines 33-50 as one function: count, compose, post.  The returned list
collects the `status_post` calls the run makes; `none` models a run aborted
by an exception before reaching the post. -/
def run (test : Bool) (altbot_statuses : List Status)
    (error_responses : List String)
    (number_of_statuses threshold_of_errors : Nat) (mods : String) :
    Option (List Post) :=
  (error_count altbot_statuses error_responses number_of_statuses).map
    (fun c => [status_post test (status c threshold_of_errors mods)])

/-- Number of phrases of `error_responses` occurring in `content`: what one
iteration of the outer loop adds to the counter. -/
def matchTotal (error_responses : List String) (content : String) : Nat :=
  (error_responses.filter (fun e => pyInStr e content)).length

/-- Modelled from the spec: the match count the spec describes, "the number
of statuses whose content contains at least one phrase as a substring", each
status contributing at most 1. -/
def specMatchCount (statuses : List Status) (phrases : List String) : Nat :=
  (statuses.filter (fun st => phrases.any (fun p => pyInStr p st.content))).length

/-- Is this JSON value an object? -/
def isObjVal : JVal → Bool
  | .jobj _ => true
  | _ => false

/-- One locale record of the documented shape: an object whose `responses`
field, when present, holds an object. -/
def isTableRecord : JVal → Bool
  | .jobj fs => fs.all (fun p => p.1 != temp1 || isObjVal p.2)
  | _ => false

/-- The documented shape of the localization file: every locale maps to a
record, and any `responses` field holds a record. -/
def isTable (localizations : List (String × JVal)) : Bool :=
  localizations.all (fun kv => isTableRecord kv.2)

/-- No locale record of the table defines an `altTextError` field inside its
`responses` record. -/
def noAltTextErrorField (localizations : List (String × JVal)) : Bool :=
  localizations.all (fun kv =>
    match JVal.getK temp1 kv.2 with
    | some r => !(JVal.pyIn temp2 r)
    | none => true)

end UptimeBot


namespace UptimeBot

theorem startsList_iff (n : List Char) :
    ∀ h, (startsList n h = true ↔ ∃ t, h = n ++ t) := by
  induction n with
  | nil => intro h; simp [startsList]
  | cons a as ih =>
    intro h
    cases h with
    | nil => simp [startsList]
    | cons b bs =>
      simp only [startsList, Bool.and_eq_true, beq_iff_eq, ih bs,
        List.cons_append, List.cons.injEq]
      constructor
      · rintro ⟨rfl, t, rfl⟩; exact ⟨t, rfl, rfl⟩
      · rintro ⟨t, rfl, rfl⟩; exact ⟨rfl, t, rfl⟩

theorem containsSub_iff (n : List Char) :
    ∀ h, (containsSub n h = true ↔ ∃ s t, h = s ++ n ++ t) := by
  intro h
  induction h with
  | nil =>
    simp only [containsSub, List.isEmpty_iff]
    constructor
    · rintro rfl; exact ⟨[], [], rfl⟩
    · rintro ⟨s, t, hst⟩
      rcases List.append_eq_nil.mp hst.symm with ⟨h1, h2⟩
      exact (List.append_eq_nil.mp h1).2
  | cons c rest ih =>
    simp only [containsSub, Bool.or_eq_true, startsList_iff, ih]
    constructor
    · rintro (⟨t, ht⟩ | ⟨s, t, hst⟩)
      · exact ⟨[], t, ht⟩
      · exact ⟨c :: s, t, by simp [hst, List.append_assoc]⟩
    · rintro ⟨s, t, hst⟩
      cases s with
      | nil => exact Or.inl ⟨t, hst⟩
      | cons c' s' =>
        simp only [List.cons_append, List.cons.injEq] at hst
        exact Or.inr ⟨s', t, hst.2⟩

theorem innerLoop_acc (c : String) :
    ∀ (es : List String) (acc : Nat),
      innerLoop c es acc = acc + innerLoop c es 0 := by
  intro es
  induction es with
  | nil => intro acc; simp [innerLoop]
  | cons e es ih =>
    intro acc
    simp only [innerLoop]
    rw [ih, ih (if pyInStr e c then 0 + 1 else 0)]
    by_cases h : pyInStr e c
    · simp [h]; omega
    · simp [h]

theorem innerLoop_eq_matchTotal (c : String) (es : List String) :
    innerLoop c es 0 = matchTotal es c := by
  induction es with
  | nil => simp [innerLoop, matchTotal]
  | cons e es ih =>
    by_cases h : pyInStr e c
    · simp only [innerLoop, matchTotal, List.filter_cons, if_pos h]
      rw [innerLoop_acc, ih]
      simp [matchTotal]
      omega
    · simp only [innerLoop, matchTotal, List.filter_cons, if_neg h]
      exact ih

theorem errorCountLoop_acc (s : List Status) (es : List String) :
    ∀ (is : List Nat) (acc : Nat),
      errorCountLoop s es is acc =
        (errorCountLoop s es is 0).map (fun r => acc + r) := by
  intro is
  induction is with
  | nil => intro acc; simp [errorCountLoop]
  | cons i is ih =>
    intro acc
    simp only [errorCountLoop]
    cases h : s[i]? with
    | none => simp
    | some st =>
      simp only
      rw [ih, ih (innerLoop st.content es 0)]
      cases hr : errorCountLoop s es is 0 with
      | none => simp
      | some k =>
        simp only [Option.map_some']
        rw [innerLoop_acc]
        simp [Nat.add_assoc]

theorem errorCountLoop_shift (s : List Status) (es : List String)
    (st : Status) :
    ∀ (is : List Nat) (acc : Nat),
      errorCountLoop (st :: s) es (is.map Nat.succ) acc =
        errorCountLoop s es is acc := by
  intro is
  induction is with
  | nil => intro acc; simp [errorCountLoop]
  | cons i is ih =>
    intro acc
    simp only [List.map_cons, errorCountLoop, List.getElem?_cons_succ]
    cases h : s[i]? with
    | none => rfl
    | some st' => exact ih _

theorem error_count_eq_sum (es : List String) :
    ∀ (n : Nat) (s : List Status), n ≤ s.length →
      error_count s es n =
        some (((s.take n).map (fun st => matchTotal es st.content)).sum) := by
  intro n
  induction n with
  | zero => intro s _; simp [error_count, errorCountLoop]
  | succ n ih =>
    intro s hs
    cases s with
    | nil => simp at hs
    | cons st s' =>
      simp only [error_count, List.range_succ_eq_map, errorCountLoop,
        List.getElem?_cons_zero]
      rw [errorCountLoop_shift]
      rw [errorCountLoop_acc]
      have hn : n ≤ s'.length := Nat.le_of_succ_le_succ hs
      have := ih s' hn
      simp only [error_count] at this
      rw [this]
      simp only [Option.map_some']
      rw [innerLoop_eq_matchTotal]
      simp [List.take_cons]

theorem errorCountLoop_none (s : List Status) (es : List String) :
    ∀ (is : List Nat) (acc : Nat), (∃ i, i ∈ is ∧ s.length ≤ i) →
      errorCountLoop s es is acc = none := by
  intro is
  induction is with
  | nil => rintro acc ⟨i, hi, _⟩; simp at hi
  | cons i is ih =>
    rintro acc ⟨j, hj, hlen⟩
    simp only [errorCountLoop]
    rcases List.mem_cons.mp hj with rfl | hj'
    · rw [List.getElem?_eq_none hlen]
    · cases h : s[i]? with
      | none => rfl
      | some st => exact ih _ ⟨j, hj', hlen⟩

theorem error_count_none (s : List Status) (es : List String) (n : Nat)
    (h : s.length < n) : error_count s es n = none :=
  errorCountLoop_none s es _ 0 ⟨s.length, List.mem_range.mpr h, Nat.le_refl _⟩

theorem pyListComp_eq {α β : Type} (g : α → Bool) (f : α → Option β) :
    ∀ xs : List α, (∀ x ∈ xs, g x = true → (f x).isSome) →
      pyListComp g f xs =
        some (xs.filterMap (fun x => if g x then f x else none)) := by
  intro xs
  induction xs with
  | nil => intro _; rfl
  | cons x xs ih =>
    intro h
    by_cases hg : g x
    · cases hf : f x with
      | none =>
        have := h x (List.mem_cons_self x xs) hg
        rw [hf] at this
        simp at this
      | some y =>
        simp only [pyListComp, if_pos hg, hf]
        rw [ih (fun z hz => h z (List.mem_cons_of_mem x hz))]
        simp [List.filterMap_cons, hg, hf]
    · simp only [pyListComp, if_neg hg]
      rw [ih (fun z hz => h z (List.mem_cons_of_mem x hz))]
      have hgf : g x = false := by simpa using hg
      simp [List.filterMap_cons, hgf]

theorem mem_guardMap_iff {α β : Type} (g : α → Bool) (f : α → Option β)
    (xs : List α) (v : β) :
    v ∈ xs.filterMap (fun x => if g x then f x else none) ↔
      ∃ x, x ∈ xs ∧ g x = true ∧ f x = some v := by
  simp only [List.mem_filterMap]
  constructor
  · rintro ⟨x, hx, hv⟩
    by_cases hg : g x
    · rw [if_pos hg] at hv; exact ⟨x, hx, hg, hv⟩
    · rw [if_neg hg] at hv; cases hv
  · rintro ⟨x, hx, hg, hv⟩
    exact ⟨x, hx, by rw [if_pos hg]; exact hv⟩

theorem pyListComp_none_of_all_false {α β : Type} (g : α → Bool)
    (f : α → Option β) :
    ∀ xs : List α, (∀ x ∈ xs, g x = false) → pyListComp g f xs = some [] := by
  intro xs
  induction xs with
  | nil => intro _; rfl
  | cons x xs ih =>
    intro h
    have hg : g x = false := h x (List.mem_cons_self x xs)
    simp only [pyListComp, hg]
    simp only [Bool.false_eq_true, if_false]
    exact ih (fun z hz => h z (List.mem_cons_of_mem x hz))

theorem any_key_iff (k : String) :
    ∀ fs : List (String × JVal),
      (fs.any (fun p => p.1 == k)) = true ↔ (lookupK k fs).isSome = true := by
  intro fs
  induction fs with
  | nil => simp [lookupK]
  | cons p fs ih =>
    cases hpk : (p.1 == k) with
    | true => simp [lookupK, hpk]
    | false => simp [lookupK, hpk, ih]

theorem lookupK_some (k : String) :
    ∀ (fs : List (String × JVal)) (v : JVal), lookupK k fs = some v →
      ∃ p, p ∈ fs ∧ p.1 = k ∧ p.2 = v := by
  intro fs
  induction fs with
  | nil => intro v hv; cases hv
  | cons p fs ih =>
    intro v hv
    by_cases hpk : p.1 == k
    · rw [lookupK, if_pos hpk] at hv
      exact ⟨p, List.mem_cons_self p fs, by simpa using hpk,
        Option.some.inj hv⟩
    · rw [lookupK, if_neg hpk] at hv
      obtain ⟨q, hq, hq1, hq2⟩ := ih v hv
      exact ⟨q, List.mem_cons_of_mem p hq, hq1, hq2⟩

theorem isTable_mem {loc : List (String × JVal)} (h : isTable loc = true)
    {kv : String × JVal} (hkv : kv ∈ loc) : isTableRecord kv.2 = true :=
  List.all_eq_true.mp h kv hkv

theorem isTableRecord_jobj {v : JVal} (h : isTableRecord v = true) :
    ∃ fs, v = .jobj fs := by
  cases v with
  | jobj fs => exact ⟨fs, rfl⟩
  | jstr s => simp [isTableRecord] at h
  | jlist xs => simp [isTableRecord] at h

theorem pyIn_getK_iff {v : JVal} (hobj : ∃ fs, v = .jobj fs) (k : String) :
    JVal.pyIn k v = true ↔ (JVal.getK k v).isSome = true := by
  obtain ⟨fs, rfl⟩ := hobj
  exact any_key_iff k fs

theorem respRecord_jobj {v r : JVal} (h : isTableRecord v = true)
    (hr : JVal.getK temp1 v = some r) : ∃ gs, r = .jobj gs := by
  obtain ⟨fs, rfl⟩ := isTableRecord_jobj h
  simp only [isTableRecord] at h
  obtain ⟨p, hp, hp1, hp2⟩ := lookupK_some temp1 fs r hr
  have hall := List.all_eq_true.mp h p hp
  rw [hp1] at hall
  simp only [bne_self_eq_false, Bool.false_or] at hall
  rw [hp2] at hall
  cases r with
  | jobj gs => exact ⟨gs, rfl⟩
  | jstr s => simp [isObjVal] at hall
  | jlist xs => simp [isObjVal] at hall

theorem responses_eq {loc : List (String × JVal)} (h : isTable loc = true) :
    responses loc =
      some (loc.filterMap (fun kv =>
        if JVal.pyIn temp1 kv.2 then JVal.getK temp1 kv.2 else none)) := by
  apply pyListComp_eq
  intro kv hkv hin
  exact (pyIn_getK_iff (isTableRecord_jobj (isTable_mem h hkv)) temp1).mp hin

theorem mem_responses_iff {loc : List (String × JVal)} (h : isTable loc = true)
    {R : List JVal} (hR : responses loc = some R) (r : JVal) :
    r ∈ R ↔ ∃ kv, kv ∈ loc ∧ JVal.getK temp1 kv.2 = some r := by
  rw [responses_eq h] at hR
  obtain rfl := Option.some.inj hR.symm
  rw [mem_guardMap_iff]
  constructor
  · rintro ⟨kv, hkv, _, hget⟩
    exact ⟨kv, hkv, hget⟩
  · rintro ⟨kv, hkv, hget⟩
    refine ⟨kv, hkv, ?_, hget⟩
    exact (pyIn_getK_iff (isTableRecord_jobj (isTable_mem h hkv)) temp1).mpr
      (by simp [hget])

theorem error_responses_char {loc : List (String × JVal)}
    (h : isTable loc = true) :
    ∃ L, error_responses loc = some L ∧
      ∀ v, (v ∈ L ↔ ∃ kv, kv ∈ loc ∧ ∃ r,
        JVal.getK temp1 kv.2 = some r ∧ JVal.getK temp2 r = some v) := by
  obtain ⟨R, hR⟩ : ∃ R, responses loc = some R := ⟨_, responses_eq h⟩
  have hRobj : ∀ r ∈ R, ∃ gs, r = JVal.jobj gs := by
    intro r hr
    obtain ⟨kv, hkv, hget⟩ := (mem_responses_iff h hR r).mp hr
    exact respRecord_jobj (isTable_mem h hkv) hget
  have h2 : ∀ r ∈ R, JVal.pyIn temp2 r = true → (JVal.getK temp2 r).isSome :=
    fun r hr hin => (pyIn_getK_iff (hRobj r hr) temp2).mp hin
  refine ⟨R.filterMap (fun v =>
      if JVal.pyIn temp2 v then JVal.getK temp2 v else none), ?_, ?_⟩
  · rw [error_responses, hR]
    exact pyListComp_eq _ _ R h2
  · intro v
    rw [mem_guardMap_iff]
    constructor
    · rintro ⟨r, hrR, _, hget⟩
      obtain ⟨kv, hkv, hget1⟩ := (mem_responses_iff h hR r).mp hrR
      exact ⟨kv, hkv, r, hget1, hget⟩
    · rintro ⟨kv, hkv, r, hget1, hget2⟩
      have hrR : r ∈ R := (mem_responses_iff h hR r).mpr ⟨kv, hkv, hget1⟩
      have hin : JVal.pyIn temp2 r = true :=
        (pyIn_getK_iff (hRobj r hrR) temp2).mpr (by simp [hget2])
      exact ⟨r, hrR, hin, hget2⟩

theorem error_responses_empty {loc : List (String × JVal)}
    (h : isTable loc = true) (h2 : noAltTextErrorField loc = true) :
    error_responses loc = some [] := by
  obtain ⟨R, hR⟩ : ∃ R, responses loc = some R := ⟨_, responses_eq h⟩
  have hfalse : ∀ r ∈ R, JVal.pyIn temp2 r = false := by
    intro r hr
    obtain ⟨kv, hkv, hget⟩ := (mem_responses_iff h hR r).mp hr
    have hall := List.all_eq_true.mp h2 kv hkv
    rw [hget] at hall
    simpa using hall
  rw [error_responses, hR]
  exact pyListComp_none_of_all_false _ _ R hfalse


theorem sum_map_le {α : Type} (l : List α) (f g : α → Nat)
    (h : ∀ x ∈ l, f x ≤ g x) : (l.map f).sum ≤ (l.map g).sum := by
  induction l with
  | nil => simp
  | cons x xs ih =>
    simp only [List.map_cons, List.sum_cons]
    have h1 := h x (List.mem_cons_self x xs)
    have h2 := ih (fun z hz => h z (List.mem_cons_of_mem x hz))
    omega

/-- C1 counterexample: the source's inner loop has no break, so the status
"ab" with phrases ["a", "b"] is counted twice, while the number of statuses
containing at least one phrase is 1; and a fetched sequence shorter than
the iteration range makes the matcher fail instead of producing a count. -/
theorem C1_per_status_counterexample :
    error_count [⟨"ab"⟩] ["a", "b"] 1 = some 2 ∧
    specMatchCount [⟨"ab"⟩] ["a", "b"] = 1 ∧
    error_count [] ["a"] 1 = none := by
  refine ⟨by decide, by decide, by decide⟩

/-- C1 (amended): for every status sequence with at least
`number_of_statuses` elements, the matcher's count equals the total number
of (status, phrase) pairs with the phrase a substring of the status content,
among the first `number_of_statuses` statuses: a status matching k phrases
contributes k, not at most 1. -/
theorem C1_count_is_pair_total (s : List Status) (es : List String) (n : Nat)
    (h : n ≤ s.length) :
    error_count s es n =
      some (((s.take n).map (fun st => matchTotal es st.content)).sum) :=
  error_count_eq_sum es n s h

theorem C1_count_is_pair_total_witness :
    1 ≤ ([⟨"ab"⟩] : List Status).length ∧
    error_count [⟨"ab"⟩] ["a", "b"] 1 =
      some (((([⟨"ab"⟩] : List Status).take 1).map
        (fun st => matchTotal ["a", "b"] st.content)).sum) :=
  ⟨by decide, C1_count_is_pair_total _ _ _ (by decide)⟩

/-- C2: the claim is right and the code wrong (the spec itself flags the
fixed-range indexing as a latent bug): whenever fewer statuses are fetched
than `number_of_statuses`, the matching step raises `IndexError` (modelled
`none`) instead of computing the count over the available statuses. -/
theorem C2_fixed_range_raises (s : List Status) (es : List String) (n : Nat)
    (h : s.length < n) : error_count s es n = none :=
  error_count_none s es n h

theorem C2_fixed_range_raises_witness :
    ([⟨"x"⟩] : List Status).length < 20 ∧
    error_count [⟨"x"⟩] ["e"] 20 = none :=
  ⟨by decide, C2_fixed_range_raises _ _ _ (by decide)⟩

/-- C3: if the count reaches the threshold, the composed message starts with
the literal alert sentence (line break and " Pinging " included) and ends
with the configured mentions string; otherwise it is exactly "All is fine". -/
theorem C3_composed_message (c t : Nat) (mods : String) :
    (t ≤ c →
      (∃ rest, status c t mods =
        "@altbot is throwing errors.\n Pinging " ++ rest) ∧
      (∃ pre, status c t mods = pre ++ mods)) ∧
    (¬ t ≤ c → status c t mods = "All is fine") := by
  constructor
  · intro h
    rw [status, if_pos h]
    exact ⟨⟨mods, rfl⟩, ⟨"@altbot is throwing errors.\n Pinging ", rfl⟩⟩
  · intro h
    rw [status, if_neg h]

theorem C3_composed_message_witness :
    (5 ≤ 6 ∧
      (∃ rest, status 6 5 "@m" =
        "@altbot is throwing errors.\n Pinging " ++ rest) ∧
      (∃ pre, status 6 5 "@m" = pre ++ "@m")) ∧
    (¬ 5 ≤ 3 ∧ status 3 5 "@m" = "All is fine") :=
  ⟨⟨by decide, (C3_composed_message 6 5 "@m").1 (by decide)⟩,
   ⟨by decide, (C3_composed_message 3 5 "@m").2 (by decide)⟩⟩


/-- C4: for every localization table of the documented shape, the extracted
collection is exactly the "altTextError" values of the locale records having
a "responses" record with that field, and nothing else. -/
theorem C4_extraction_exact (loc : List (String × JVal))
    (h : isTable loc = true) :
    ∃ L, error_responses loc = some L ∧
      ∀ v, (v ∈ L ↔ ∃ kv, kv ∈ loc ∧ ∃ r,
        JVal.getK temp1 kv.2 = some r ∧ JVal.getK temp2 r = some v) :=
  error_responses_char h

theorem C4_extraction_exact_witness :
    isTable [("en", JVal.jobj [("responses",
      JVal.jobj [("altTextError", JVal.jstr "No alt text!")])])] = true ∧
    ∃ L, error_responses [("en", JVal.jobj [("responses",
        JVal.jobj [("altTextError", JVal.jstr "No alt text!")])])] = some L ∧
      ∀ v, (v ∈ L ↔ ∃ kv, kv ∈ [("en", JVal.jobj [("responses",
        JVal.jobj [("altTextError", JVal.jstr "No alt text!")])])] ∧ ∃ r,
        JVal.getK temp1 kv.2 = some r ∧ JVal.getK temp2 r = some v) :=
  ⟨by decide, C4_extraction_exact _ (by decide)⟩

/-- C5: in test mode the submitted post carries the "testing" spoiler
whatever message was composed; without test mode it carries none; in both
modes the posted text is the composed message itself. -/
theorem C5_testing_spoiler (c t : Nat) (mods : String) :
    (status_post true (status c t mods)).spoiler_text = some "testing" ∧
    (status_post false (status c t mods)).spoiler_text = none ∧
    ∀ test : Bool, (status_post test (status c t mods)).text =
      status c t mods := by
  refine ⟨rfl, rfl, ?_⟩
  intro test
  cases test <;> rfl

/-- C6: the per-status test of the matcher is literal, case-sensitive
substring containment on the raw content: it holds exactly when the phrase's
characters occur contiguously in the content, a case-changed phrase does not
match, and a phrase inside raw markup does. -/
theorem C6_literal_case_sensitive :
    (∀ e c : String, pyInStr e c = true ↔
      ∃ s t, c.toList = s ++ e.toList ++ t) ∧
    pyInStr "No Alt Text" "no alt text" = false ∧
    pyInStr "no alt" "<p>no alt</p>" = true ∧
    error_count [⟨"no alt text"⟩] ["No Alt Text"] 1 = some 0 ∧
    error_count [⟨"<p>no alt</p>"⟩] ["no alt"] 1 = some 1 := by
  refine ⟨?_, by decide, by decide, by decide, by decide⟩
  intro e c
  exact containsSub_iff e.toList c.toList

/-- C7 counterexample: on a table defining no "altTextError" the extraction
does return the empty collection, but the matcher's count on the empty
status sequence is an `IndexError` (`none`), not 0 as the claim states for
every status sequence. -/
theorem C7_counterexample :
    error_responses [("en", JVal.jobj [("responses",
      JVal.jobj [("ok", JVal.jstr "fine")])])] = some [] ∧
    error_count [] [] 1 = none := by
  refine ⟨rfl, by decide⟩

/-- C7 (amended): on every documented-shape table with no "altTextError"
field under "responses", extraction succeeds with the empty collection; the
matcher's count is 0 on every status sequence with at least
`number_of_statuses` elements, and with a positive threshold the all-clear
message is composed. -/
theorem C7_empty_phrases_all_clear (loc : List (String × JVal))
    (s : List Status) (n t : Nat) (mods : String)
    (h : isTable loc = true) (h2 : noAltTextErrorField loc = true)
    (hn : n ≤ s.length) (ht : 0 < t) :
    error_responses loc = some [] ∧ error_count s [] n = some 0 ∧
    status 0 t mods = "All is fine" := by
  refine ⟨error_responses_empty h h2, ?_, ?_⟩
  · rw [error_count_eq_sum [] n s hn]
    simp [matchTotal]
  · rw [status, if_neg (by omega)]

theorem C7_empty_phrases_all_clear_witness :
    (isTable [("en", JVal.jobj [("responses",
        JVal.jobj [("ok", JVal.jstr "fine")])])] = true ∧
      noAltTextErrorField [("en", JVal.jobj [("responses",
        JVal.jobj [("ok", JVal.jstr "fine")])])] = true ∧
      1 ≤ ([⟨"x"⟩] : List Status).length ∧ 0 < 5) ∧
    (error_responses [("en", JVal.jobj [("responses",
        JVal.jobj [("ok", JVal.jstr "fine")])])] = some [] ∧
      error_count [⟨"x"⟩] [] 1 = some 0 ∧
      status 0 5 "@m" = "All is fine") :=
  ⟨⟨by decide, by decide, by decide, by decide⟩,
   C7_empty_phrases_all_clear _ _ _ _ "@m" (by decide) (by decide)
     (by decide) (by decide)⟩


/-- C8: a run that completes submits exactly one post: the trace of
`status_post` calls of every successful run has length one, whatever message
was composed and whatever the test-mode flag; a run aborted by an exception
posts nothing. -/
theorem C8_exactly_one_post (test : Bool) (s : List Status)
    (es : List String) (n t : Nat) (mods : String) (posts : List Post)
    (h : run test s es n t mods = some posts) : posts.length = 1 := by
  rw [run] at h
  cases hc : error_count s es n with
  | none => rw [hc] at h; cases h
  | some c =>
    rw [hc] at h
    simp only [Option.map_some'] at h
    obtain rfl := Option.some.inj h.symm
    rfl

theorem C8_exactly_one_post_witness :
    run true [] [] 0 5 "m" = some [⟨"All is fine", some "testing"⟩] ∧
    ([(⟨"All is fine", some "testing"⟩ : Post)]).length = 1 :=
  ⟨rfl, C8_exactly_one_post true [] [] 0 5 "m" _ rfl⟩

/-- C9: on fully iterated sequences the matcher's count is invariant under
permutation of the statuses: it depends only on the multiset of contents. -/
theorem C9_perm_invariant (s₁ s₂ : List Status) (es : List String)
    (h : s₁.Perm s₂) :
    error_count s₁ es s₁.length = error_count s₂ es s₂.length := by
  rw [error_count_eq_sum es s₁.length s₁ (Nat.le_refl _),
      error_count_eq_sum es s₂.length s₂ (Nat.le_refl _)]
  simp only [List.take_length]
  exact congrArg some ((h.map _).sum_eq)

theorem C9_perm_invariant_witness :
    ([⟨"a"⟩, ⟨"b"⟩] : List Status).Perm [⟨"b"⟩, ⟨"a"⟩] ∧
    error_count [⟨"a"⟩, ⟨"b"⟩] ["a"] 2 = error_count [⟨"b"⟩, ⟨"a"⟩] ["a"] 2 :=
  ⟨by decide, C9_perm_invariant [⟨"a"⟩, ⟨"b"⟩] [⟨"b"⟩, ⟨"a"⟩] ["a"] (by decide)⟩

/-- C10: the matcher's count is monotone in the phrase list: with the same
fully iterated status sequence, a sub-list of phrases yields a count less
than or equal to the larger list's count. -/
theorem C10_phrase_monotone (s : List Status) (P Q : List String) (n : Nat)
    (hsub : P.Sublist Q) (hn : n ≤ s.length) :
    ∃ cP cQ, error_count s P n = some cP ∧ error_count s Q n = some cQ ∧
      cP ≤ cQ := by
  refine ⟨_, _, error_count_eq_sum P n s hn, error_count_eq_sum Q n s hn, ?_⟩
  apply sum_map_le
  intro st _
  exact (hsub.filter (fun e => pyInStr e st.content)).length_le

theorem C10_phrase_monotone_witness :
    ((["a"] : List String).Sublist ["a", "b"] ∧
      1 ≤ ([⟨"ab"⟩] : List Status).length) ∧
    (∃ cP cQ, error_count [⟨"ab"⟩] ["a"] 1 = some cP ∧
      error_count [⟨"ab"⟩] ["a", "b"] 1 = some cQ ∧ cP ≤ cQ) :=
  ⟨⟨by decide, by decide⟩,
   C10_phrase_monotone _ _ _ _ (by decide) (by decide)⟩

end UptimeBot
